import Mathlib

set_option maxRecDepth 100000

/-!
Verification of the map-generation pipeline of the rltk roguelike crawler.

This file gives a shallow embedding, in Lean, of the parts of the Rust
source that the claims talk about:

* `src/map.rs` — `TileType`, `Map` (tile grid, `blocked` bitmap,
  `populate_blocked`, `is_exit_valid`, `get_available_exits`);
* `src/map_builder/common.rs` — `remove_unreachable_areas_returning_most_distant`,
  `Symmetry`, `paint`, `apply_paint`;
* `src/map_builder/cellular_automata.rs` — the automata passes,
  `locate_start`, `locate_exit`;
* `src/map_builder/maze.rs` — `Grid::generate_maze` and its helpers;
* `src/map_builder/waveform_collapse/` — `Direction`, `MapChunk`,
  `patterns_to_constraints`, `Solver::iteration`, and the retry loop of
  `WaveformCollapseBuilder::build`;
* `src/map_builder/area_based_gen.rs` — `AreaStartingPosition`;
* `src/map_builder/voronoi.rs` — the exit placement after culling.

Machine integers (`i32`, `usize`) are modelled as `Int`/`Nat`; all the
quantities involved are small and never overflow in the modelled code
paths.  The external collaborator `rltk::DijkstraMap` is modelled as a
bounded single-source shortest-path computation over the exits graph of
`Map::get_available_exits` (cardinal steps cost 1.0, diagonal steps cost
1.45, search bounded by 200.0); to stay in exact arithmetic all costs are
scaled by 20, giving natural weights 20 and 29 and the bound 4000.
Rust `Vec` mutation loops become folds over `List.range`; out-of-bounds
accesses (which would panic in Rust) are modelled with `List.getD`
defaults and never occur on the inputs exercised here.
-/

/-- Tile classification, from `TileType` in `src/map.rs`. -/
inductive Tile where
  | wall
  | floor
  | downStairs
  deriving DecidableEq, Repr, BEq, Inhabited

/-- The map record, from `Map` in `src/map.rs`, restricted to the fields the
generation claims read: dimensions, the tile grid and the `blocked` bitmap.
The visibility bitmaps, depth, bloodstains and occupant lists play no role
in any claim. -/
structure MapL where
  width : Nat
  height : Nat
  tiles : List Tile
  blocked : List Bool
  deriving DecidableEq, Repr, BEq

/-- Index arithmetic of `Map::xy_idx`: `(y * width) + x` (coordinates are
non-negative whenever this is reached in the modelled code paths). -/
def xy_idx (m : MapL) (x y : Int) : Nat :=
  y.toNat * m.width + x.toNat

/-- Tile lookup with the `Wall` default (Rust would panic out of bounds;
no modelled code path goes out of bounds). -/
def tileAt (m : MapL) (i : Nat) : Tile :=
  m.tiles.getD i Tile.wall

/-- Fresh all-wall map of the fixed 80 × 43 dimensions of `Map::new`. -/
def mapNew : MapL :=
  { width := 80, height := 43,
    tiles := List.replicate (80 * 43) Tile.wall,
    blocked := List.replicate (80 * 43) false }

/-- Blocked-bitmap recomputation, from `Map::populate_blocked`:
`blocked[i] = tiles[i] == Wall`. -/
def populate_blocked (m : MapL) : MapL :=
  { m with blocked := m.tiles.map (fun t => t = Tile.wall) }

/-- Target-cell validity, from `Map::is_exit_valid`, parameterized by the
map components it reads: the coordinate bounds `1 ≤ x ≤ width-1`,
`1 ≤ y ≤ height-1` (faithfully including the off-by-one that admits the
last column and row) and the `blocked` bitmap on the target cell. -/
def exitValidB (w h : Nat) (blocked : List Bool) (x y : Int) : Bool :=
  decide (1 ≤ x) && decide (x ≤ (w : Int) - 1) &&
  decide (1 ≤ y) && decide (y ≤ (h : Int) - 1) &&
  !(blocked.getD (y.toNat * w + x.toNat) false)

/-- Target-cell validity of `Map::is_exit_valid` on a map record. -/
def is_exit_valid (m : MapL) (x y : Int) : Bool :=
  exitValidB m.width m.height m.blocked x y

/-- Neighborhood of `Map::get_available_exits`: the four cardinal steps at
cost 20 and the four diagonal steps at cost 29 (1.0 and 1.45 scaled
by 20). -/
def dirCosts : List (Int × Int × Nat) :=
  [(-1, 0, 20), (1, 0, 20), (0, -1, 20), (0, 1, 20),
   (-1, -1, 29), (1, -1, 29), (-1, 1, 29), (1, 1, 29)]

/-- Distance extension by an edge: adding cost `c` to a known distance,
discarded when the bounded search limit 4000 (200.0 scaled by 20) is
reached; `none` stands for the `f32::MAX` sentinel of `rltk::DijkstraMap`. -/
def oadd : Option Nat → Nat → Option Nat
  | none, _ => none
  | some v, c => if v + c < 4000 then some (v + c) else none

/-- Minimum of two distances, with `none` as infinity. -/
def omin : Option Nat → Option Nat → Option Nat
  | none, b => b
  | some a, none => some a
  | some a, some b => some (min a b)

/-- Distance order with `none` as infinity. -/
def oLE : Option Nat → Option Nat → Prop
  | _, none => True
  | none, some _ => False
  | some a, some b => a ≤ b

/-- Distance read at signed coordinates: out-of-grid sources contribute no
distance (they are never enqueued by the search). -/
def dGetB (w h : Nat) (d : List (Option Nat)) (x y : Int) : Option Nat :=
  if 0 ≤ x ∧ x < (w : Int) ∧ 0 ≤ y ∧ y < (h : Int) then
    d.getD (y.toNat * w + x.toNat) none
  else none

/-- Relaxation of one cell: if the cell is a valid search target its
distance is the minimum of its current distance and every neighbour's
distance extended along the connecting edge; otherwise it is left alone.
This is the fixpoint step of the bounded flood of `rltk::DijkstraMap` over
`Map::get_available_exits` (the search never writes to invalid targets,
and sources are not filtered, matching the unconditional enqueue of the
start tile). -/
def relaxAtB (w h : Nat) (blocked : List Bool) (d : List (Option Nat)) (i : Nat) :
    Option Nat :=
  if exitValidB w h blocked ((i % w : Nat) : Int) ((i / w : Nat) : Int) then
    dirCosts.foldl
      (fun acc dc =>
        omin acc
          (oadd (dGetB w h d (((i % w : Nat) : Int) + dc.1) (((i / w : Nat) : Int) + dc.2.1))
            dc.2.2))
      (d.getD i none)
  else d.getD i none

/-- One synchronous relaxation sweep over the whole grid. -/
def relaxStepB (w h : Nat) (blocked : List Bool) (d : List (Option Nat)) :
    List (Option Nat) :=
  (List.range (w * h)).map (relaxAtB w h blocked d)

/-- Initial distance map: the start tile at distance 0, everything else
unreached. -/
def initDistB (w h : Nat) (start : Nat) : List (Option Nat) :=
  (List.range (w * h)).map (fun i => if i = start then some 0 else none)

/-- Bounded shortest-path distances of `rltk::DijkstraMap::new` on map `m`
from `start`: the relaxation sweep is iterated once per grid cell, which
subsumes every improving path the queue-driven search can take. -/
def dijkstraList (m : MapL) (start : Nat) : List (Option Nat) :=
  (relaxStepB m.width m.height m.blocked)^[m.width * m.height]
    (initDistB m.width m.height start)

/-- Tiles of a map that the cull pass turns from floor to wall: floor tiles
whose flood distance from `start` is the infinity sentinel. -/
def newlyCulled (m : MapL) (s : Nat) (i : Nat) : Prop :=
  i < m.tiles.length ∧ tileAt m i = Tile.floor ∧
    (dijkstraList (populate_blocked m) s).getD i none = none

/-- Cull decision of one tile, from the loop body of
`remove_unreachable_areas_returning_most_distant` in
`src/map_builder/common.rs` (lines 123-138): a `Floor` tile whose distance
is the `f32::MAX` sentinel becomes `Wall`. -/
def cullCell (dist : Option Nat) (t : Tile) : Tile :=
  if t = Tile.floor ∧ dist = none then Tile.wall else t

/-- Tile pass of the cull loop, applied at every index of the tile vector. -/
def cullTiles (dij : List (Option Nat)) (tiles : List Tile) : List Tile :=
  (List.range tiles.length).map (fun i => cullCell (dij.getD i none) (tiles.getD i Tile.wall))

/-- Exit-candidate accumulator of the cull loop: starting from `(0, 0.0)`,
a reachable `Floor` tile strictly farther than the current best replaces
it. -/
def exitFoldStep (dij : List (Option Nat)) (tiles : List Tile) (acc : Nat × Nat) (i : Nat) :
    Nat × Nat :=
  if tiles.getD i Tile.wall = Tile.floor then
    match dij.getD i none with
    | none => acc
    | some v => if acc.2 < v then (i, v) else acc
  else acc

/-- Exit-candidate scan over the whole tile vector. -/
def exitFold (dij : List (Option Nat)) (tiles : List Tile) : Nat × Nat :=
  (List.range tiles.length).foldl (exitFoldStep dij tiles) (0, 0)

/-- Reachability cull, from `remove_unreachable_areas_returning_most_distant`
in `src/map_builder/common.rs` (lines 108-142): repopulate `blocked`, run
the bounded Dijkstra flood from `start`, turn unreachable `Floor` tiles to
`Wall`, and return the index of the farthest reachable `Floor` tile seen
(the `(0, 0.0)` initial candidate is returned untouched when no reachable
`Floor` tile has strictly positive distance). -/
def remove_unreachable_areas_returning_most_distant (m : MapL) (start : Nat) : MapL × Nat :=
  let m1 := populate_blocked m
  let dij := dijkstraList m1 start
  ({ m1 with tiles := cullTiles dij m1.tiles }, (exitFold dij m1.tiles).1)

/-- Exit placement of `VoronoiBuilder::build` in `src/map_builder/voronoi.rs`
(lines 112-113): the tile at the returned index is unconditionally
overwritten with `DownStairs`. -/
def voronoiPlaceExit (m : MapL) (start : Nat) : MapL :=
  let r := remove_unreachable_areas_returning_most_distant m start
  { r.1 with tiles := r.1.tiles.set r.2 Tile.downStairs }

/-- Symmetry modes of the drunkard painter, from `Symmetry` in
`src/map_builder/common.rs`. -/
inductive Symmetry where
  | noSym
  | horizontal
  | vertical
  | both
  deriving DecidableEq, Repr

/-- Bounds check of `Map::in_bounds`. -/
def in_bounds (m : MapL) (x dx y dy : Int) : Bool :=
  decide (x + dx ≥ 1) && decide (x + dx < (m.width : Int) - 1) &&
  decide (y + dy ≥ 1) && decide (y + dy < (m.height : Int) - 1)

/-- Signed half-open range of integers, used to model Rust `a..b` loops over
`i32` values. -/
def intRange (lo hi : Int) : List Int :=
  (List.range (hi - lo).toNat).map (fun k => lo + (k : Int))

/-- Brush application, from `apply_paint` in `src/map_builder/common.rs`
(lines 280-299): a size-1 brush paints the single tile, a larger brush
paints the in-bounds cells of the `half_brush` square. -/
def apply_paint (m : MapL) (brush_size : Int) (x y : Int) : MapL :=
  if brush_size = 1 then
    { m with tiles := m.tiles.set (xy_idx m x y) Tile.floor }
  else
    let half := brush_size / 2
    (intRange (y - half) (y + half)).foldl (fun acc by_ =>
      (intRange (x - half) (x + half)).foldl (fun acc2 bx =>
        if in_bounds acc2 bx 0 by_ 0 then
          { acc2 with tiles := acc2.tiles.set (xy_idx acc2 bx by_) Tile.floor }
        else acc2) acc) m

/-- Symmetric painting, from `paint` in `src/map_builder/common.rs`
(lines 226-277), including — faithfully — the `Vertical` branch that
applies the brush at `center.y + d_y` twice (lines 255-256) instead of
once at `center.y + d_y` and once at `center.y - d_y`. -/
def paint (m : MapL) (mode : Symmetry) (brush_size : Int) (x y : Int) : MapL :=
  let cx : Int := (m.width : Int) / 2
  let cy : Int := (m.height : Int) / 2
  let m1 : MapL := { m with tiles := m.tiles.set (xy_idx m x y) Tile.floor }
  match mode with
  | Symmetry.noSym => apply_paint m1 brush_size x y
  | Symmetry.horizontal =>
      if x = cx then apply_paint m1 brush_size x y
      else
        let dx : Int := (cx - x).natAbs
        apply_paint (apply_paint m1 brush_size (cx + dx) y) brush_size (cx - dx) y
  | Symmetry.vertical =>
      if y = cy then apply_paint m1 brush_size x y
      else
        let dy : Int := (cy - y).natAbs
        apply_paint (apply_paint m1 brush_size x (cy + dy)) brush_size x (cy + dy)
  | Symmetry.both =>
      if x = cx ∧ y = cy then apply_paint m1 brush_size x y
      else
        let dx : Int := (cx - x).natAbs
        let dy : Int := (cy - y).natAbs
        let m2 := apply_paint (apply_paint m1 brush_size (cx + dx) y) brush_size (cx - dx) y
        apply_paint (apply_paint m2 brush_size x (cy + dy)) brush_size x (cy - dy)

/-- All-wall 7 × 7 test map for the painting claim. -/
def paintMap7 : MapL :=
  { width := 7, height := 7,
    tiles := List.replicate 49 Tile.wall,
    blocked := List.replicate 49 false }

/-- Degenerate 4 × 3 map: a single isolated floor tile at `(1, 1)`
(index 5), every other tile wall.  From the start index 5 no floor tile
has strictly positive flood distance. -/
def mdeg : MapL :=
  { width := 4, height := 3,
    tiles := [Tile.wall, Tile.wall, Tile.wall, Tile.wall,
              Tile.wall, Tile.floor, Tile.wall, Tile.wall,
              Tile.wall, Tile.wall, Tile.wall, Tile.wall],
    blocked := List.replicate 12 false }

/-- Small 5 × 3 map with a three-tile floor corridor at row 1
(indices 6, 7, 8); the start index 7 is its centre, so indices 6 and 8
have flood distance 20 (one cardinal step). -/
def mcorr : MapL :=
  { width := 5, height := 3,
    tiles := [Tile.wall, Tile.wall, Tile.wall, Tile.wall, Tile.wall,
              Tile.wall, Tile.floor, Tile.floor, Tile.floor, Tile.wall,
              Tile.wall, Tile.wall, Tile.wall, Tile.wall, Tile.wall],
    blocked := List.replicate 15 false }

/-- Stable insertion of an element into a sorted list: the new element goes
before the first element it compares less-or-equal to.  Used to model the
stable `sort_by` of Rust `Vec` (a stable sort's output is determined by the
comparator, so any stable sort is a faithful model). -/
def insertByStable {a : Type} (le : a → a → Bool) (x : a) : List a → List a
  | [] => [x]
  | y :: ys => if le x y then x :: y :: ys else y :: insertByStable le x ys

/-- Stable sort by a boolean comparator, modelling Rust `sort_by`. -/
def sortByStable {a : Type} (le : a → a → Bool) (l : List a) : List a :=
  l.foldr (insertByStable le) []

/-- Moore-neighbourhood wall count of the cellular automata pass, from
`CellularAutomataBuilder::build` in `src/map_builder/cellular_automata.rs`
(lines 86-100): the offsets `1`, `width`, `width-1`, `width+1` are applied
in both directions, so the code counts all eight surrounding cells, not
just the four axis-adjacent ones. -/
def caWallCount (m : MapL) (i : Nat) : Nat :=
  [1, m.width, m.width - 1, m.width + 1].foldl
    (fun acc n =>
      acc + (if m.tiles.getD (i - n) Tile.wall = Tile.wall then 1 else 0)
          + (if m.tiles.getD (i + n) Tile.wall = Tile.wall then 1 else 0)) 0

/-- Next-generation value of one interior cell (lines 101-106): wall when
the neighbour count is 0 or exceeds 4, floor otherwise. -/
def caCell (m : MapL) (i : Nat) : Tile :=
  if caWallCount m i > 4 ∨ caWallCount m i = 0 then Tile.wall else Tile.floor

/-- Next-generation value of an arbitrary cell: the automata loop only
rewrites interior cells (`x, y` in `1 .. dim - 2`); the border keeps its
scratch-clone value. -/
def caPassCell (m : MapL) (i : Nat) : Tile :=
  if 1 ≤ i % m.width ∧ i % m.width < m.width - 1 ∧
      1 ≤ i / m.width ∧ i / m.width < m.height - 1 then
    caCell m i
  else m.tiles.getD i Tile.wall

/-- One automata generation: the new tile vector is computed entirely from
the unmodified current grid (the code writes into the `newtiles` scratch
clone), rewriting interior cells and leaving the border untouched. -/
def caPass (m : MapL) : MapL :=
  { m with tiles := (List.range m.tiles.length).map (caPassCell m) }

/-- The fixed fifteen automata passes of `CellularAutomataBuilder::build`
(line 79: `for _ in 0..15`). -/
def caPasses (m : MapL) : MapL := caPass^[15] m

/-- Follows the claim wording only (for comparison with the code): the
number of the four axis-adjacent neighbours of the cell at `(x, y)` that
are wall. -/
def specAxisWallCount (m : MapL) (x y : Nat) : Nat :=
  (if tileAt m (y * m.width + (x - 1)) = Tile.wall then 1 else 0) +
  (if tileAt m (y * m.width + (x + 1)) = Tile.wall then 1 else 0) +
  (if tileAt m ((y - 1) * m.width + x) = Tile.wall then 1 else 0) +
  (if tileAt m ((y + 1) * m.width + x) = Tile.wall then 1 else 0)

/-- Follows the amended claim wording: the number of the eight surrounding
cells (four axis-adjacent and four diagonal) of `(x, y)` that are wall,
listed in the order in which the code's offset loop reads them. -/
def specMooreWallCount (m : MapL) (x y : Nat) : Nat :=
  (if tileAt m (y * m.width + (x - 1)) = Tile.wall then 1 else 0) +
  (if tileAt m (y * m.width + (x + 1)) = Tile.wall then 1 else 0) +
  (if tileAt m ((y - 1) * m.width + x) = Tile.wall then 1 else 0) +
  (if tileAt m ((y + 1) * m.width + x) = Tile.wall then 1 else 0) +
  (if tileAt m ((y - 1) * m.width + (x + 1)) = Tile.wall then 1 else 0) +
  (if tileAt m ((y + 1) * m.width + (x - 1)) = Tile.wall then 1 else 0) +
  (if tileAt m ((y - 1) * m.width + (x - 1)) = Tile.wall then 1 else 0) +
  (if tileAt m ((y + 1) * m.width + (x + 1)) = Tile.wall then 1 else 0)

/-- Concrete 5 x 5 grid: all floor except the single wall at `(1, 1)`
(index 6).  The interior cell `(2, 2)` (index 12) has no axis-adjacent
wall neighbour but one diagonal wall neighbour. -/
def g5 : MapL :=
  { width := 5, height := 5,
    tiles := (List.range 25).map (fun i => if i = 6 then Tile.wall else Tile.floor),
    blocked := List.replicate 25 false }

/-- Start-tile search of `CellularAutomataBuilder::locate_start`: walk left
from the map centre until a floor tile is found.  The Rust loop has no
bound (it panics off the map edge when a row has no floor); the fuel
`width + 2` covers every terminating run. -/
def locate_start_aux (m : MapL) : Nat → Int → Int → Nat
  | 0, x, y => xy_idx m x y
  | fuel + 1, x, y =>
      if tileAt m (xy_idx m x y) ≠ Tile.floor then locate_start_aux m fuel (x - 1) y
      else xy_idx m x y

/-- Start-tile search from the map centre. -/
def locate_start (m : MapL) : Nat :=
  locate_start_aux m (m.width + 2) ((m.width : Int) / 2) ((m.height : Int) / 2)

/-- Exit placement of `CellularAutomataBuilder::locate_exit` (lines
189-194): cull unreachable areas, then overwrite the returned farthest
tile with `DownStairs`. -/
def locate_exit (m : MapL) (startIdx : Nat) : MapL :=
  let r := remove_unreachable_areas_returning_most_distant m startIdx
  { r.1 with tiles := r.1.tiles.set r.2 Tile.downStairs }

/-- Start selection of `AreaStartingPosition` (CENTER/CENTER) from
`src/map_builder/area_based_gen.rs`: collect every floor tile with its
squared Pythagorean distance to the seed `(width/2, height/2)` (the
`DistanceAlgorithm::Pythagoras` variant maps to
`rltk::DistanceAlg::PythagorasSquared`, exact on these integers), sort
stably by distance, and take the first.  Returns the chosen tile index. -/
def area_starting_position (m : MapL) : Nat :=
  let seedX : Int := (m.width : Int) / 2
  let seedY : Int := (m.height : Int) / 2
  let floors := (List.range m.tiles.length).filterMap (fun i =>
    if tileAt m i = Tile.floor then
      some (i, ((i % m.width : Nat) : Int) - seedX, ((i / m.width : Nat) : Int) - seedY)
    else none)
  let dists := floors.map (fun f => (f.1, f.2.1 * f.2.1 + f.2.2 * f.2.2))
  let sorted := sortByStable (fun a b => decide (a.2 ≤ b.2)) dists
  (sorted.headD (0, 0)).1

/-- The `CullUnreachable` post-processing stage: per the spec it is
implemented by `remove_unreachable_areas_returning_most_distant` (the
returned exit index is discarded).  The stage struct itself is referenced
by `map_builder/mod.rs` but absent from `src/`. -/
def cullStage (m : MapL) (startIdx : Nat) : MapL :=
  (remove_unreachable_areas_returning_most_distant m startIdx).1

/-- Modelled from the spec: the `DistantExit` post-processing stage is
referenced by `map_builder/mod.rs` (`use common::{CullUnreachable,
DistantExit}`) but its definition is absent from `src/`.  Per the spec,
"among reachable Floor tiles, the one with maximum finite distance becomes
DownStairs"; the exit scan of the culling utility realizes exactly that
maximum, so it is reused here (ties and the no-candidate case resolve to
the first index scanned). -/
def specDistantExit (m : MapL) (startIdx : Nat) : MapL :=
  let m1 := populate_blocked m
  let dij := dijkstraList m1 startIdx
  { m1 with tiles := m1.tiles.set (exitFold dij m1.tiles).1 Tile.downStairs }

/-- Tile grid produced by the `BuilderChains::CellularAutomata` chain
(`map_builder/mod.rs` lines 151-156) on the corridor state `mcorr`
standing in for the automata output: the initial builder's own
`locate_start`/`locate_exit` run first (they are part of
`CellularAutomataBuilder::build`), then `AreaStartingPosition`,
`CullUnreachable` and `DistantExit` (the `VoronoiSpawning` stage never
touches tiles and is omitted). -/
def chainCellularTiles : MapL :=
  let m1 := locate_exit mcorr (locate_start mcorr)
  let s := area_starting_position m1
  let m2 := cullStage m1 s
  specDistantExit m2 s

/-- Maze cell, from `Cell` in `src/map_builder/maze.rs`: the four walls are
indexed TOP = 0, RIGHT = 1, BOTTOM = 2, LEFT = 3. -/
structure MCell where
  row : Int
  col : Int
  walls : List Bool
  visited : Bool
  deriving DecidableEq, Repr, Inhabited

/-- Maze grid state, from `Grid` in `src/map_builder/maze.rs` (the RNG
handle is threaded separately as an oracle). -/
structure MGrid where
  width : Int
  height : Int
  cells : List MCell
  backtrace : List Nat
  current : Nat
  deriving DecidableEq, Repr

/-- Fresh maze grid of unvisited cells with all four walls, from
`Grid::new`. -/
def gridNew (w h : Int) : MGrid :=
  { width := w, height := h,
    cells := ((intRange 0 h).map (fun r => (intRange 0 w).map (fun c =>
      { row := r, col := c, walls := [true, true, true, true],
        visited := false : MCell }))).flatten,
    backtrace := [], current := 0 }

/-- Cell lookup (Rust indexes the vector directly; every modelled access is
in range). -/
def cellAt (g : MGrid) (i : Nat) : MCell :=
  g.cells.getD i default

/-- Bounds-checked index of `Grid::calculate_index`: `-1` marks an
off-grid neighbour. -/
def calculate_index (g : MGrid) (row col : Int) : Int :=
  if row < 0 ∨ col < 0 ∨ col > g.width - 1 ∨ row > g.height - 1 then -1
  else col + row * g.width

/-- Unvisited neighbours of the current cell, from
`Grid::get_available_neighbors`, in the fixed probe order up, right,
down, left. -/
def get_available_neighbors (g : MGrid) : List Nat :=
  let cr := (cellAt g g.current).row
  let cc := (cellAt g g.current).col
  [calculate_index g (cr - 1) cc, calculate_index g cr (cc + 1),
   calculate_index g (cr + 1) cc, calculate_index g cr (cc - 1)].foldl
    (fun acc i =>
      if i ≠ -1 ∧ ¬(cellAt g i.toNat).visited then acc ++ [i.toNat] else acc) []

/-- Oracle model of `rltk::RandomNumberGenerator::roll_dice(1, n)`: the
next oracle entry plays the roll (concrete runs supply values in
`1..=n`). -/
def roll_dice (rng : List Nat) (_n : Nat) : Nat × List Nat :=
  (rng.headD 1, rng.tail)

/-- Next-cell choice of `Grid::find_next_cell`: a single unvisited
neighbour is taken directly, several are resolved by a die roll. -/
def find_next_cell (g : MGrid) (rng : List Nat) : Option Nat × List Nat :=
  let ns := get_available_neighbors g
  if ns.isEmpty then (none, rng)
  else if ns.length = 1 then (some (ns.getD 0 0), rng)
  else
    let r := roll_dice rng ns.length
    (some (ns.getD (r.1 - 1) 0), r.2)

/-- Wall removal between two adjacent cells, from `Cell::remove_walls`
(the first argument is the lower-index cell, as produced by the
`split_at_mut` borrow split in `generate_maze`). -/
def remove_walls (c1 c2 : MCell) : MCell × MCell :=
  let x := c1.col - c2.col
  let y := c1.row - c2.row
  if x = 1 then
    ({ c1 with walls := c1.walls.set 3 false }, { c2 with walls := c2.walls.set 1 false })
  else if x = -1 then
    ({ c1 with walls := c1.walls.set 1 false }, { c2 with walls := c2.walls.set 3 false })
  else if y = 1 then
    ({ c1 with walls := c1.walls.set 0 false }, { c2 with walls := c2.walls.set 2 false })
  else if y = -1 then
    ({ c1 with walls := c1.walls.set 2 false }, { c2 with walls := c2.walls.set 0 false })
  else (c1, c2)

/-- Mark one cell visited. -/
def markVisited (g : MGrid) (i : Nat) : MGrid :=
  { g with cells := g.cells.set i { cellAt g i with visited := true } }

/-- One pass of the generation loop of `Grid::generate_maze`
(lines 204-240; the periodic snapshot bookkeeping never affects the grid
state and is omitted): mark the current cell visited; with an unvisited
neighbour, advance to it after removing the shared wall and appending the
current cell to `backtrace`; at a dead end, continue from `backtrace[0]`
and drop it via `remove(0)` — the front of the vector, i.e. the
first-pushed entry; `none` models the `break` when the backtrace is
empty. -/
def maze_step (g : MGrid) (rng : List Nat) : Option (MGrid × List Nat) :=
  let g1 := markVisited g g.current
  let fc := find_next_cell g1 rng
  match fc.1 with
  | some nxt =>
      let g2 := markVisited g1 nxt
      let g3 := { g2 with backtrace := g2.backtrace ++ [g2.current] }
      let a := min g3.current nxt
      let b := max g3.current nxt
      let rw := remove_walls (cellAt g3 a) (cellAt g3 b)
      let g4 := { g3 with cells := (g3.cells.set a rw.1).set b rw.2 }
      some ({ g4 with current := nxt }, fc.2)
  | none =>
      if g1.backtrace.isEmpty then none
      else
        let g2 := { g1 with current := g1.backtrace.headD 0, backtrace := g1.backtrace.tail }
        some (g2, fc.2)

/-- Bounded unrolling of the generation loop (`none` once the loop has
broken). -/
def maze_steps : Nat → MGrid → List Nat → Option (MGrid × List Nat)
  | 0, g, rng => some (g, rng)
  | n + 1, g, rng =>
      match maze_step g rng with
      | some gr => maze_steps n gr.1 gr.2
      | none => none

/-- Concrete dead-end maze state on a 3 x 1 grid: every cell visited,
current cell 2, backtrace `[0, 1]` (0 pushed first, 1 pushed most
recently) — exactly the state the run from `gridNew 3 1` reaches after
three steps. -/
def mazeDead : MGrid :=
  { width := 3, height := 1,
    cells := [{ row := 0, col := 0, walls := [true, false, true, true], visited := true },
              { row := 0, col := 1, walls := [true, false, true, false], visited := true },
              { row := 0, col := 2, walls := [true, true, true, false], visited := true }],
    backtrace := [0, 1], current := 2 }

/-- Chunk-local tile index, from `tile_idx_in_chunks` in
`src/map_builder/waveform_collapse/common.rs`. -/
def tile_idx_in_chunks (cs x y : Nat) : Nat :=
  y * cs + x

/-- Compass directions of the WFC module, with the enum discriminants of
the Rust `Direction` (North = 0, South = 1, West = 2, East = 3). -/
inductive Direction where
  | north
  | south
  | west
  | east
  deriving DecidableEq, Repr

/-- Discriminant used whenever the code indexes an array with
`direction as usize`. -/
def Direction.disc : Direction → Nat
  | Direction.north => 0
  | Direction.south => 1
  | Direction.west => 2
  | Direction.east => 3

/-- Opposite direction, from `Direction::opposite`. -/
def Direction.opposite : Direction → Direction
  | Direction.north => Direction.south
  | Direction.south => Direction.north
  | Direction.west => Direction.east
  | Direction.east => Direction.west

/-- Iteration order of `Direction::iterator()`: North, South, East, West —
which does NOT match the discriminant order (West = 2, East = 3). -/
def directionIter : List Direction :=
  [Direction.north, Direction.south, Direction.east, Direction.west]

/-- Border-cell index of slot `x` on one side, from `Direction::get_index`. -/
def Direction.get_index (d : Direction) (cs x : Nat) : Nat :=
  match d with
  | Direction.north => tile_idx_in_chunks cs x 0
  | Direction.south => tile_idx_in_chunks cs x (cs - 1)
  | Direction.west => tile_idx_in_chunks cs 0 x
  | Direction.east => tile_idx_in_chunks cs (cs - 1) x

/-- Border indices of slot `x` in iterator order, from
`Direction::get_indices`. -/
def get_indices (cs x : Nat) : List Nat :=
  directionIter.map (fun d => d.get_index cs x)

/-- WFC catalog entry, from `MapChunk` in
`src/map_builder/waveform_collapse/common.rs`. -/
structure MapChunk where
  pattern : List Tile
  exits : List (List Bool)
  has_exits : Bool
  compatible_with : List (List Nat)
  deriving DecidableEq, Repr, Inhabited

/-- Update one bit of the nested exits table. -/
def set2 (ll : List (List Bool)) (i x : Nat) (b : Bool) : List (List Bool) :=
  ll.set i ((ll.getD i []).set x b)

/-- Exit-vector computation of `patterns_to_constraints` (lines 72-84):
slot `i` of the enumeration follows the iterator order North, South,
East, West, so `exits[2]` holds the East border and `exits[3]` the West
border.  Returns the table and the total exit count. -/
def buildExits (p : List Tile) (cs : Nat) : List (List Bool) × Nat :=
  (List.range cs).foldl
    (fun acc x =>
      (get_indices cs x).enum.foldl
        (fun acc2 it =>
          if p.getD it.2 Tile.wall = Tile.floor then (set2 acc2.1 it.1 x true, acc2.2 + 1)
          else acc2) acc)
    (List.replicate 4 (List.replicate cs false), 0)

/-- Catalog entry before compatibility filling, faithfully including
line 85: `has_exits = n_exits == 0` — the flag is TRUE exactly when the
pattern has NO exits, inverting what its name says. -/
def mkChunk (p : List Tile) (cs : Nat) : MapChunk :=
  let e := buildExits p cs
  { pattern := p, exits := e.1, has_exits := e.2 = 0,
    compatible_with := List.replicate 4 [] }

/-- Append a candidate to every direction list. -/
def pushAll (cw : List (List Nat)) (j : Nat) : List (List Nat) :=
  cw.map (fun l => l ++ [j])

/-- Append a candidate to one direction list. -/
def pushAtDir (cw : List (List Nat)) (k j : Nat) : List (List Nat) :=
  cw.set k ((cw.getD k []) ++ [j])

/-- Compatibility filling of `patterns_to_constraints` (lines 89-119):
because of the inverted `has_exits` flag, the guard
`!constraint.has_exits || !potential.has_exits` takes the "compatible in
every direction" fast path whenever EITHER pattern has at least one exit;
the slot-matching branch only runs when both patterns are exit-free, where
`has_any` is false for every side and each of the four direction passes
appends the candidate to all four lists. -/
def buildCompat (c : MapChunk) (all : List MapChunk) : List (List Nat) :=
  all.enum.foldl
    (fun cw jp =>
      if !c.has_exits || !jp.2.has_exits then pushAll cw jp.1
      else
        (directionIter.zip c.exits).foldl
          (fun cw2 de =>
            let fits := de.2.enum.any (fun sb =>
              sb.2 && (jp.2.exits.getD de.1.opposite.disc []).getD sb.1 false)
            let hasAny := de.2.any (fun b => b)
            let cw3 := if fits then pushAtDir cw2 de.1.disc jp.1 else cw2
            if !hasAny then pushAll cw3 jp.1 else cw3)
          cw)
    c.compatible_with

/-- Constraint catalog construction, from `patterns_to_constraints` in
`src/map_builder/waveform_collapse/constraints.rs` (lines 63-122). -/
def patterns_to_constraints (patterns : List (List Tile)) (cs : Nat) : List MapChunk :=
  let base := patterns.map (fun p => mkChunk p cs)
  base.map (fun c => { c with compatible_with := buildCompat c base })

/-- Follows the spec wording only: the exit vector of one side of a
pattern (border cells that are floor). -/
def specSideExits (p : List Tile) (cs : Nat) (d : Direction) : List Bool :=
  (List.range cs).map (fun x => decide (p.getD (d.get_index cs x) Tile.wall = Tile.floor))

/-- Follows the spec wording only: a pattern with no floor cell on any of
its four borders. -/
def specExitFree (p : List Tile) (cs : Nat) : Bool :=
  [Direction.north, Direction.south, Direction.west, Direction.east].all
    (fun d => (specSideExits p cs d).all (fun b => !b))

/-- Follows the claim wording only: two patterns are compatible in a
direction iff one is exit-free or their facing exit vectors intersect. -/
def specCompatibleB (p q : List Tile) (cs : Nat) (d : Direction) : Bool :=
  specExitFree p cs || specExitFree q cs ||
  (List.range cs).any (fun slot =>
    (specSideExits p cs d).getD slot false &&
    (specSideExits q cs d.opposite).getD slot false)

/-- First test pattern for the constraint claim: a 2 x 2 chunk with floor
only at `(0, 0)` — exits on its North and West borders at slot 0. -/
def wfcP0 : List Tile :=
  [Tile.floor, Tile.wall, Tile.wall, Tile.wall]

/-- Second test pattern: a 2 x 2 chunk with floor only at `(1, 1)` — exits
on its South and East borders at slot 1. -/
def wfcP1 : List Tile :=
  [Tile.wall, Tile.wall, Tile.wall, Tile.floor]

/-- Solver state, from `Solver` in
`src/map_builder/waveform_collapse/solver.rs` (the RNG is threaded as an
oracle). -/
structure SolverL where
  constraints : List MapChunk
  chunk_size : Nat
  chunks : List (Option Nat)
  chunks_x : Nat
  chunks_y : Nat
  remaining : List (Nat × Nat)
  possible : Bool
  deriving DecidableEq, Repr

/-- Fresh solver, from `Solver::new`. -/
def solverNew (constraints : List MapChunk) (cs : Nat) (m : MapL) : SolverL :=
  let cx := m.width / cs
  let cy := m.height / cs
  { constraints := constraints, chunk_size := cs,
    chunks := List.replicate (cx * cy) none,
    chunks_x := cx, chunks_y := cy,
    remaining := (List.range (cx * cy)).map (fun i => (i, 0)),
    possible := true }

/-- Chunk-grid index, from `Solver::chunk_idx`. -/
def chunk_idx (s : SolverL) (x y : Nat) : Nat :=
  y * s.chunks_x + x

/-- Resolved-neighbour count of a chunk cell, from
`Solver::count_neighbors`. -/
def count_neighbors (s : SolverL) (cx cy : Nat) : Nat :=
  (if cx > 0 ∧ (s.chunks.getD (chunk_idx s (cx - 1) cy) none).isSome then 1 else 0) +
  (if cx < s.chunks_x - 1 ∧ (s.chunks.getD (chunk_idx s (cx + 1) cy) none).isSome then 1 else 0) +
  (if cy > 0 ∧ (s.chunks.getD (chunk_idx s cx (cy - 1)) none).isSome then 1 else 0) +
  (if cy < s.chunks_y - 1 ∧ (s.chunks.getD (chunk_idx s cx (cy + 1)) none).isSome then 1 else 0)

/-- Pattern rendering into the map, from
`Solver::apply_constraints_to_map`. -/
def apply_constraints_to_map (s : SolverL) (m : MapL) (cx cy pat : Nat) : MapL :=
  let lx := cx * s.chunk_size
  let ty := cy * s.chunk_size
  let nt := (List.range (s.chunk_size * s.chunk_size)).foldl
    (fun acc k =>
      acc.set ((ty + k / s.chunk_size) * m.width + (lx + k % s.chunk_size))
        ((s.constraints.getD pat default).pattern.getD k Tile.wall))
    m.tiles
  { m with tiles := nt }

/-- Compatibility list contributed by one resolved neighbour (the
neighbour's list in the direction pointing back at the popped chunk). -/
def neighborOption (s : SolverL) (cond : Bool) (idx : Nat) (d : Direction) : List (List Nat) :=
  if cond then
    match s.chunks.getD idx none with
    | some n => [(s.constraints.getD n default).compatible_with.getD d.disc []]
    | none => []
  else []

/-- Option lists gathered from the resolved neighbours in the fixed order
left, right, up, down (solver.rs lines 99-133). -/
def gatherOptions (s : SolverL) (cx cy : Nat) : List (List Nat) :=
  neighborOption s (decide (cx > 0)) (chunk_idx s (cx - 1) cy) Direction.east ++
  neighborOption s (decide (cx < s.chunks_x - 1)) (chunk_idx s (cx + 1) cy) Direction.west ++
  neighborOption s (decide (cy > 0)) (chunk_idx s cx (cy - 1)) Direction.south ++
  neighborOption s (decide (cy < s.chunks_y - 1)) (chunk_idx s cx (cy + 1)) Direction.north

/-- Intersection of the option lists (solver.rs lines 140-152): the
`to_check` hash set is modelled as the deduplicated union in first-seen
order — only emptiness and length of the result are ever consumed, so the
set's iteration order is immaterial. -/
def possibleOptions (options : List (List Nat)) : List Nat :=
  (options.flatten).dedup.filter (fun c => options.all (fun o => o.contains c))

/-- One solver step, from `Solver::iteration` (lines 73-169), faithfully
including: line 93, `remaining.remove(r_idx).1` — the removed entry's
NEIGHBOUR COUNT, not its `.0` index, becomes the resolved `chunk_idx`;
line 80, the recount divides by `chunks_y` instead of `chunks_x`; and
lines 159-163, the freshly rolled position inside `possible_options` is
stored directly as the catalog pattern index instead of
`possible_options[position]`.  Returns the updated solver, map, oracle and
the loop-exit flag. -/
def iteration (s : SolverL) (m : MapL) (rng : List Nat) :
    SolverL × MapL × List Nat × Bool :=
  if s.remaining.isEmpty then (s, m, rng, true)
  else
    let rem1 := s.remaining.map (fun r =>
      (r.1, count_neighbors s (r.1 % s.chunks_x) (r.1 / s.chunks_y)))
    let neighborsExist := rem1.any (fun r => r.2 > 0)
    let sorted := sortByStable (fun a b => decide (b.2 ≤ a.2)) rem1
    let pick := if neighborsExist then ((0 : Nat), rng)
      else (let q := roll_dice rng sorted.length; (q.1 - 1, q.2))
    let popped := sorted.getD pick.1 (0, 0)
    let rem2 := sorted.eraseIdx pick.1
    let chunkIdx := popped.2
    let cx := chunkIdx % s.chunks_x
    let cy := chunkIdx / s.chunks_x
    let options := gatherOptions s cx cy
    if options.isEmpty then
      let q := roll_dice pick.2 s.constraints.length
      let s2 := { s with chunks := s.chunks.set chunkIdx (some (q.1 - 1)), remaining := rem2 }
      (s2, apply_constraints_to_map s2 m cx cy (q.1 - 1), q.2, false)
    else
      let po := possibleOptions options
      if po.isEmpty then
        ({ s with possible := false, remaining := rem2 }, m, pick.2, true)
      else
        let rr := if po.length = 1 then ((0 : Nat), pick.2)
          else (let q := roll_dice pick.2 po.length; (q.1 - 1, q.2))
        let s2 := { s with chunks := s.chunks.set chunkIdx (some rr.1), remaining := rem2 }
        (s2, apply_constraints_to_map s2 m cx cy rr.1, rr.2, false)

/-- Catalog entry for the solver-step claim: only the compatibility lists
matter. -/
def mkC4Chunk (cw : List (List Nat)) : MapChunk :=
  { pattern := [Tile.floor], exits := [[], [], [], []], has_exits := false,
    compatible_with := cw }

/-- Six-pattern catalog: pattern 3 accepts only pattern 5 to its north;
all other lists are empty. -/
def wfcCons6 : List MapChunk :=
  [mkC4Chunk [[], [], [], []], mkC4Chunk [[], [], [], []], mkC4Chunk [[], [], [], []],
   mkC4Chunk [[5], [], [], []], mkC4Chunk [[], [], [], []],
   mkC4Chunk [[], [], [], []]]

/-- All-wall 3 x 3 map for the solver-step claim. -/
def wfcMap3 : MapL :=
  { width := 3, height := 3,
    tiles := List.replicate 9 Tile.wall,
    blocked := List.replicate 9 false }

/-- Hand-built solver state on a 3 x 3 chunk grid: chunks 5 and 7 are
resolved (patterns 3 and 0), one remaining entry for chunk 8 (whose two
resolved neighbours give it count 2). -/
def wfcSolver0 : SolverL :=
  { constraints := wfcCons6, chunk_size := 1,
    chunks := [none, none, none, none, none, some 3, none, some 0, none],
    chunks_x := 3, chunks_y := 3,
    remaining := [(8, 0)], possible := true }

/-- Bounded run of the inner solve loop of
`WaveformCollapseBuilder::build` (line 117: `while !solver.iteration(..)`)
— each non-final iteration removes one `remaining` entry, so the fuel
`remaining.length + 1` covers every run. -/
def runSolver : Nat → SolverL → MapL → List Nat → SolverL × MapL × List Nat
  | 0, s, m, rng => (s, m, rng)
  | fuel + 1, s, m, rng =>
      let r := iteration s m rng
      if r.2.2.2 then (r.1, r.2.1, r.2.2.1) else runSolver fuel r.1 r.2.1 r.2.2.1

/-- One solve attempt of the retry loop (lines 116-119): a fresh solver is
built over the CURRENT map and run to completion. -/
def wfcAttempt (cons : List MapChunk) (m : MapL) (rng : List Nat) :
    SolverL × MapL × List Nat :=
  let s0 := solverNew cons 7 m
  runSolver (s0.remaining.length + 1) s0 m rng

/-- The retry loop of `WaveformCollapseBuilder::build` (lines 115-124),
faithfully NOT resetting the map between attempts: the only
`self.map = Map::new(depth)` sits before the loop (line 114), so a failed
attempt's map is passed on to the next attempt unchanged. -/
def wfcLoop : Nat → List MapChunk → MapL → List Nat → MapL
  | 0, _, m, _ => m
  | fuel + 1, cons, m, rng =>
      let a := wfcAttempt cons m rng
      if a.1.possible then a.2.1 else wfcLoop fuel cons a.2.1 a.2.2

/-- Three-pattern catalog for the retry-loop claim: pattern 2 is all
floor with East list `[1]` and empty West list; pattern 0 is all floor
with every list empty; pattern 1 is all wall.  With the oracle
`[1, 3, 1]` the first attempt paints chunk 0 with pattern 2 (floors),
paints chunk 1, and on its fifth iteration hits an empty intersection and
flags `possible = false`. -/
def wfcCons5 : List MapChunk :=
  [{ pattern := List.replicate 49 Tile.floor, exits := [[], [], [], []],
     has_exits := false, compatible_with := [[], [], [], []] },
   { pattern := List.replicate 49 Tile.wall, exits := [[], [], [], []],
     has_exits := false, compatible_with := [[], [], [], []] },
   { pattern := List.replicate 49 Tile.floor, exits := [[], [], [], []],
     has_exits := false, compatible_with := [[], [], [], [1]] }]

/-- Claim C8: painting with `Symmetry::Vertical` is claimed to carve floor
symmetrically about the centre row — the cell at `(x, center.y + d)` is
painted iff the cell at `(x, center.y - d)` is.  On the 7 × 7 all-wall map
(centre row 3), painting at `(3, 5)` (so `d = 2`) leaves `(3, 5)` a floor
but `(3, 1)` a wall: the `Vertical` branch of `paint` applies the brush at
`center.y + d_y` twice and never at `center.y - d_y`, so the claimed
equivalence fails. -/
theorem paint_vertical_not_symmetric :
    (paint paintMap7 Symmetry.vertical 1 3 5).tiles.getD (xy_idx paintMap7 3 5) Tile.wall
        = Tile.floor ∧
    (paint paintMap7 Symmetry.vertical 1 3 5).tiles.getD (xy_idx paintMap7 3 1) Tile.wall
        = Tile.wall := by
  decide

/-- Lookup into a tabulated function. -/
theorem getD_range_map {α : Type} (f : Nat → α) (n i : Nat) (d : α) :
    ((List.range n).map f).getD i d = if i < n then f i else d := by
  rw [List.getD_eq_getElem?_getD, List.getElem?_map]
  by_cases hi : i < n
  · rw [List.getElem?_range hi]
    simp [hi]
  · rw [List.getElem?_eq_none (by simpa using Nat.le_of_not_lt hi)]
    simp [hi]

/-- Pointwise description of the cull pass. -/
theorem cullTiles_getD (dij : List (Option Nat)) (tiles : List Tile) (i : Nat) :
    (cullTiles dij tiles).getD i Tile.wall =
      if i < tiles.length then cullCell (dij.getD i none) (tiles.getD i Tile.wall)
      else Tile.wall := by
  unfold cullTiles
  rw [getD_range_map]

/-- Length preservation of the cull pass. -/
theorem cullTiles_length (dij : List (Option Nat)) (tiles : List Tile) :
    (cullTiles dij tiles).length = tiles.length := by
  unfold cullTiles
  simp

/-- Invariant of the exit-candidate scan: the accumulated best value bounds
the distance of every floor tile already scanned, and a non-initial
accumulator records an actual floor tile with that (strictly positive)
distance. -/
theorem exitFold_aux (dij : List (Option Nat)) (tiles : List Tile) (n : Nat) :
    (∀ j, j < n → tiles.getD j Tile.wall = Tile.floor →
        ∀ v, dij.getD j none = some v →
        v ≤ ((List.range n).foldl (exitFoldStep dij tiles) (0, 0)).2) ∧
    ((List.range n).foldl (exitFoldStep dij tiles) (0, 0) = (0, 0) ∨
      (tiles.getD ((List.range n).foldl (exitFoldStep dij tiles) (0, 0)).1 Tile.wall
          = Tile.floor ∧
       dij.getD ((List.range n).foldl (exitFoldStep dij tiles) (0, 0)).1 none
          = some ((List.range n).foldl (exitFoldStep dij tiles) (0, 0)).2 ∧
       0 < ((List.range n).foldl (exitFoldStep dij tiles) (0, 0)).2 ∧
       ((List.range n).foldl (exitFoldStep dij tiles) (0, 0)).1 < n)) := by
  induction n with
  | zero => simp
  | succ n ih =>
    rw [List.range_succ, List.foldl_append, List.foldl_cons, List.foldl_nil]
    obtain ⟨iha, ihb⟩ := ih
    set r := (List.range n).foldl (exitFoldStep dij tiles) (0, 0) with hr
    by_cases hf : tiles.getD n Tile.wall = Tile.floor
    · cases hd : dij.getD n none with
      | none =>
        have hstep : exitFoldStep dij tiles r n = r := by
          unfold exitFoldStep
          rw [if_pos hf, hd]
        rw [hstep]
        constructor
        · intro j hj hfl v hv
          rcases Nat.lt_succ_iff_lt_or_eq.mp hj with hj' | hj'
          · exact iha j hj' hfl v hv
          · subst hj'
            rw [hd] at hv
            exact absurd hv (by simp)
        · rcases ihb with hb | ⟨h1, h2, h3, h4⟩
          · exact Or.inl hb
          · exact Or.inr ⟨h1, h2, h3, Nat.lt_succ_of_lt h4⟩
      | some v =>
        by_cases hlt : r.2 < v
        · have hstep : exitFoldStep dij tiles r n = (n, v) := by
            unfold exitFoldStep
            rw [if_pos hf, hd]
            exact if_pos hlt
          rw [hstep]
          constructor
          · intro j hj hfl u hu
            rcases Nat.lt_succ_iff_lt_or_eq.mp hj with hj' | hj'
            · exact le_of_lt (lt_of_le_of_lt (iha j hj' hfl u hu) hlt)
            · subst hj'
              rw [hd] at hu
              simp_all
          · refine Or.inr ?_
            refine ⟨hf, ?_, ?_, Nat.lt_succ_self n⟩
            · exact hd
            · exact lt_of_le_of_lt (Nat.zero_le r.2) hlt
        · have hstep : exitFoldStep dij tiles r n = r := by
            unfold exitFoldStep
            rw [if_pos hf, hd]
            exact if_neg hlt
          rw [hstep]
          constructor
          · intro j hj hfl u hu
            rcases Nat.lt_succ_iff_lt_or_eq.mp hj with hj' | hj'
            · exact iha j hj' hfl u hu
            · subst hj'
              rw [hd] at hu
              have huv : v = u := Option.some.inj hu
              subst huv
              exact Nat.le_of_not_lt hlt
          · rcases ihb with hb | ⟨h1, h2, h3, h4⟩
            · exact Or.inl hb
            · exact Or.inr ⟨h1, h2, h3, Nat.lt_succ_of_lt h4⟩
    · have hstep : exitFoldStep dij tiles r n = r := by
        unfold exitFoldStep
        exact if_neg hf
      rw [hstep]
      constructor
      · intro j hj hfl v hv
        rcases Nat.lt_succ_iff_lt_or_eq.mp hj with hj' | hj'
        · exact iha j hj' hfl v hv
        · subst hj'
          exact absurd hfl hf
      · rcases ihb with hb | ⟨h1, h2, h3, h4⟩
        · exact Or.inl hb
        · exact Or.inr ⟨h1, h2, h3, Nat.lt_succ_of_lt h4⟩

/-- Tiles of the culled map, unfolded. -/
theorem remove_tiles_eq (m : MapL) (s : Nat) :
    (remove_unreachable_areas_returning_most_distant m s).1.tiles =
      cullTiles (dijkstraList (populate_blocked m) s) m.tiles := rfl

/-- Returned exit index of the cull, unfolded. -/
theorem remove_snd_eq (m : MapL) (s : Nat) :
    (remove_unreachable_areas_returning_most_distant m s).2 =
      (exitFold (dijkstraList (populate_blocked m) s) m.tiles).1 := rfl

/-- A tile that is still floor after the cull was a floor tile of the
original map, lies inside the tile vector, and has a finite flood
distance. -/
theorem culled_floor_orig (m : MapL) (s : Nat) (j : Nat)
    (hfl : tileAt (remove_unreachable_areas_returning_most_distant m s).1 j = Tile.floor) :
    j < m.tiles.length ∧ tileAt m j = Tile.floor ∧
      (dijkstraList (populate_blocked m) s).getD j none ≠ none := by
  have h := hfl
  unfold tileAt at h
  rw [remove_tiles_eq, cullTiles_getD] at h
  by_cases hj : j < m.tiles.length
  · rw [if_pos hj] at h
    unfold cullCell at h
    by_cases hc : m.tiles.getD j Tile.wall = Tile.floor ∧
        (dijkstraList (populate_blocked m) s).getD j none = none
    · rw [if_pos hc] at h
      exact absurd h (by simp)
    · rw [if_neg hc] at h
      refine ⟨hj, h, ?_⟩
      intro hnone
      exact hc ⟨h, hnone⟩
  · rw [if_neg hj] at h
    exact absurd h (by simp)

/-- Claim C1 (amended): when at least one floor tile has a finite, strictly
positive flood distance from the start, the cull (a) leaves only tiles of
finite distance as floor, (b) converts every infinitely distant floor tile
to wall, and (c) returns the index of a remaining floor tile whose
distance is maximal among all remaining floor tiles.  The amendment (the
existence hypothesis) is forced by the `(0, 0.0)` initial exit candidate:
without any strictly positive reachable floor tile the function returns
index 0, which need not be a floor tile (see the counterexample). -/
theorem cull_most_distant_exit (m : MapL) (s : Nat)
    (h : ∃ i v, i < m.tiles.length ∧ tileAt m i = Tile.floor ∧
        (dijkstraList (populate_blocked m) s).getD i none = some v ∧ 0 < v) :
    (∀ i, tileAt (remove_unreachable_areas_returning_most_distant m s).1 i = Tile.floor →
        (dijkstraList (populate_blocked m) s).getD i none ≠ none) ∧
    (∀ i, i < m.tiles.length → tileAt m i = Tile.floor →
        (dijkstraList (populate_blocked m) s).getD i none = none →
        tileAt (remove_unreachable_areas_returning_most_distant m s).1 i = Tile.wall) ∧
    tileAt (remove_unreachable_areas_returning_most_distant m s).1
        (remove_unreachable_areas_returning_most_distant m s).2 = Tile.floor ∧
    (∀ j u, tileAt (remove_unreachable_areas_returning_most_distant m s).1 j = Tile.floor →
        (dijkstraList (populate_blocked m) s).getD j none = some u →
        ∃ b, (dijkstraList (populate_blocked m) s).getD
            (remove_unreachable_areas_returning_most_distant m s).2 none = some b ∧ u ≤ b) := by
  obtain ⟨i0, v0, hi0, hf0, hd0, hv0⟩ := h
  obtain ⟨ha, hb⟩ :=
    exitFold_aux (dijkstraList (populate_blocked m) s) m.tiles m.tiles.length
  have hbr : tileAt m (exitFold (dijkstraList (populate_blocked m) s) m.tiles).1 = Tile.floor ∧
      (dijkstraList (populate_blocked m) s).getD
        (exitFold (dijkstraList (populate_blocked m) s) m.tiles).1 none
        = some (exitFold (dijkstraList (populate_blocked m) s) m.tiles).2 ∧
      0 < (exitFold (dijkstraList (populate_blocked m) s) m.tiles).2 ∧
      (exitFold (dijkstraList (populate_blocked m) s) m.tiles).1 < m.tiles.length := by
    rcases hb with hz | hgood
    · exfalso
      have hle := ha i0 hi0 hf0 v0 hd0
      rw [hz] at hle
      exact absurd (lt_of_lt_of_le hv0 hle) (by simp)
    · exact hgood
  refine ⟨?_, ?_, ?_, ?_⟩
  · intro i hfl
    exact (culled_floor_orig m s i hfl).2.2
  · intro i hi hfl hnone
    unfold tileAt
    rw [remove_tiles_eq, cullTiles_getD, if_pos hi]
    unfold cullCell
    rw [if_pos ⟨hfl, hnone⟩]
  · unfold tileAt
    rw [remove_tiles_eq, cullTiles_getD, remove_snd_eq, if_pos hbr.2.2.2]
    unfold cullCell
    rw [hbr.2.1]
    rw [if_neg (by simp)]
    exact hbr.1
  · intro j u hfl hdu
    obtain ⟨hj, hfo, _⟩ := culled_floor_orig m s j hfl
    refine ⟨(exitFold (dijkstraList (populate_blocked m) s) m.tiles).2, ?_, ?_⟩
    · rw [remove_snd_eq]
      exact hbr.2.1
    · exact ha j hj hfo u hdu

set_option maxRecDepth 100000 in
/-- Claim C1, witness: on the corridor map `mcorr` with start index 7 the
hypothesis holds (tile 6 is a floor at distance 20) and the returned exit
index is a remaining floor tile. -/
theorem cull_most_distant_exit_witness :
    (∃ i v, i < mcorr.tiles.length ∧ tileAt mcorr i = Tile.floor ∧
        (dijkstraList (populate_blocked mcorr) 7).getD i none = some v ∧ 0 < v) ∧
    tileAt (remove_unreachable_areas_returning_most_distant mcorr 7).1
        (remove_unreachable_areas_returning_most_distant mcorr 7).2 = Tile.floor :=
  ⟨⟨6, 20, by decide⟩, (cull_most_distant_exit mcorr 7 ⟨6, 20, by decide⟩).2.2.1⟩

set_option maxRecDepth 100000 in
/-- Claim C1, counterexample to the claim as stated: on the degenerate map
`mdeg` (one isolated floor tile at index 5, the start itself) the cull
leaves index 5 a floor tile of maximal (zero) distance, yet returns
index 0, whose tile is not a floor tile — so the returned index is not
"a remaining Floor tile whose flood-distance is the maximum among all
remaining Floor tiles". -/
theorem cull_exit_not_floor_on_degenerate :
    tileAt (remove_unreachable_areas_returning_most_distant mdeg 5).1 5 = Tile.floor ∧
    (remove_unreachable_areas_returning_most_distant mdeg 5).2 = 0 ∧
    tileAt (remove_unreachable_areas_returning_most_distant mdeg 5).1
        (remove_unreachable_areas_returning_most_distant mdeg 5).2 ≠ Tile.floor := by
  decide

/-- Degenerate exit scan: when no floor tile has a strictly positive
finite distance the accumulator never moves off `(0, 0)`. -/
theorem exitFold_degenerate (dij : List (Option Nat)) (tiles : List Tile)
    (h : ∀ i, i < tiles.length → tiles.getD i Tile.wall = Tile.floor →
        (dij.getD i none).getD 0 = 0) :
    exitFold dij tiles = (0, 0) := by
  have haux : ∀ n, n ≤ tiles.length →
      (List.range n).foldl (exitFoldStep dij tiles) (0, 0) = (0, 0) := by
    intro n
    induction n with
    | zero => simp
    | succ n ih =>
      intro hn
      rw [List.range_succ, List.foldl_append, List.foldl_cons, List.foldl_nil,
        ih (Nat.le_of_succ_le hn)]
      unfold exitFoldStep
      by_cases hf : tiles.getD n Tile.wall = Tile.floor
      · rw [if_pos hf]
        cases hd : dij.getD n none with
        | none => rfl
        | some v =>
          have hv : v = 0 := by
            have hvz := h n (Nat.lt_of_succ_le hn) hf
            rw [hd] at hvz
            simpa using hvz
          subst hv
          show (if (0, 0).2 < 0 then (n, 0) else ((0 : Nat), (0 : Nat))) = (0, 0)
          rw [if_neg (by simp)]
      · rw [if_neg hf]
  exact haux tiles.length (Nat.le_refl _)

/-- Claim C10: when no floor tile has a finite flood distance strictly
greater than 0 from the start, the cull returns tile index 0; if tile 0 of
the map is a wall (the closed top-left border corner), it stays a wall
after the cull, and the caller in `VoronoiBuilder::build` nevertheless
overwrites it with `DownStairs`, placing the exit on the border wall. -/
theorem cull_degenerate_returns_zero (m : MapL) (s : Nat)
    (h : ∀ i, i < m.tiles.length → tileAt m i = Tile.floor →
        ((dijkstraList (populate_blocked m) s).getD i none).getD 0 = 0)
    (h0 : tileAt m 0 = Tile.wall) (hlen : 0 < m.tiles.length) :
    (remove_unreachable_areas_returning_most_distant m s).2 = 0 ∧
    tileAt (remove_unreachable_areas_returning_most_distant m s).1 0 = Tile.wall ∧
    tileAt (voronoiPlaceExit m s) 0 = Tile.downStairs := by
  have hz : exitFold (dijkstraList (populate_blocked m) s) m.tiles = (0, 0) :=
    exitFold_degenerate _ _ h
  have h2 : (remove_unreachable_areas_returning_most_distant m s).2 = 0 := by
    rw [remove_snd_eq, hz]
  have hcull0 : tileAt (remove_unreachable_areas_returning_most_distant m s).1 0 = Tile.wall := by
    unfold tileAt
    rw [remove_tiles_eq, cullTiles_getD, if_pos hlen]
    unfold cullCell
    unfold tileAt at h0
    rw [h0]
    split <;> rfl
  refine ⟨h2, hcull0, ?_⟩
  have hv : (voronoiPlaceExit m s).tiles =
      (remove_unreachable_areas_returning_most_distant m s).1.tiles.set
        (remove_unreachable_areas_returning_most_distant m s).2 Tile.downStairs := rfl
  unfold tileAt
  rw [hv, h2, List.getD_eq_getElem?_getD, List.getElem?_set]
  rw [if_pos rfl]
  rw [if_pos (by rw [remove_tiles_eq, cullTiles_length]; exact hlen)]
  rfl

set_option maxRecDepth 100000 in
/-- Claim C10, witness: the degenerate map `mdeg` with start 5 satisfies
the hypotheses (the single floor tile is the start, at distance 0, and
tile 0 is a border wall), and the conclusions hold there. -/
theorem cull_degenerate_returns_zero_witness :
    ((∀ i, i < mdeg.tiles.length → tileAt mdeg i = Tile.floor →
        ((dijkstraList (populate_blocked mdeg) 5).getD i none).getD 0 = 0) ∧
      tileAt mdeg 0 = Tile.wall ∧ 0 < mdeg.tiles.length) ∧
    ((remove_unreachable_areas_returning_most_distant mdeg 5).2 = 0 ∧
      tileAt (remove_unreachable_areas_returning_most_distant mdeg 5).1 0 = Tile.wall ∧
      tileAt (voronoiPlaceExit mdeg 5) 0 = Tile.downStairs) :=
  ⟨⟨by decide, by decide, by decide⟩,
    cull_degenerate_returns_zero mdeg 5 (by decide) (by decide) (by decide)⟩

/-- Reflexivity of the distance order. -/
theorem oLE_refl (a : Option Nat) : oLE a a := by
  cases a <;> simp [oLE]

/-- Transitivity of the distance order. -/
theorem oLE_trans {a b c : Option Nat} (h1 : oLE a b) (h2 : oLE b c) : oLE a c := by
  cases c with
  | none => cases a <;> trivial
  | some z =>
    cases b with
    | none => exact absurd h2 (by simp [oLE])
    | some y =>
      cases a with
      | none => exact absurd h1 (by simp [oLE])
      | some x => exact Nat.le_trans h1 h2

/-- Only infinity lies above infinity. -/
theorem oLE_none {b : Option Nat} (h : oLE none b) : b = none := by
  cases b
  · rfl
  · exact absurd h (by simp [oLE])

/-- Taking a minimum can only move down. -/
theorem omin_le_left (a b : Option Nat) : oLE (omin a b) a := by
  cases a <;> cases b <;> simp [omin, oLE]

/-- A fold of minima never exceeds its starting accumulator. -/
theorem foldl_omin_le {α : Type} (g : α → Option Nat) (l : List α) (a : Option Nat) :
    oLE (l.foldl (fun acc e => omin acc (g e)) a) a := by
  induction l generalizing a with
  | nil => exact oLE_refl a
  | cons x xs ih =>
    rw [List.foldl_cons]
    exact oLE_trans (ih (omin a (g x))) (omin_le_left a (g x))

/-- Cell relaxation can only decrease a distance. -/
theorem relaxAtB_le (w h : Nat) (blocked : List Bool) (d : List (Option Nat)) (i : Nat) :
    oLE (relaxAtB w h blocked d i) (d.getD i none) := by
  unfold relaxAtB
  split
  · exact foldl_omin_le _ dirCosts (d.getD i none)
  · exact oLE_refl _

/-- Lookup below the tabulated range. -/
theorem getD_of_length_le {α : Type} (l : List α) (i : Nat) (d : α) (h : l.length ≤ i) :
    l.getD i d = d := by
  rw [List.getD_eq_getElem?_getD, List.getElem?_eq_none h]
  rfl

/-- Pointwise description of one relaxation sweep. -/
theorem relaxStepB_getD (w h : Nat) (blocked : List Bool) (d : List (Option Nat)) (i : Nat) :
    (relaxStepB w h blocked d).getD i none =
      if i < w * h then relaxAtB w h blocked d i else none := by
  unfold relaxStepB
  rw [getD_range_map]

/-- One sweep can only decrease each distance (for a distance vector of the
grid's size). -/
theorem relaxStepB_le (w h : Nat) (blocked : List Bool) (d : List (Option Nat))
    (hlen : d.length = w * h) (i : Nat) :
    oLE ((relaxStepB w h blocked d).getD i none) (d.getD i none) := by
  rw [relaxStepB_getD]
  by_cases hi : i < w * h
  · rw [if_pos hi]
    exact relaxAtB_le w h blocked d i
  · rw [if_neg hi]
    rw [getD_of_length_le d i none (by rw [hlen]; exact Nat.le_of_not_lt hi)]
    exact oLE_refl none

/-- Sweeps preserve the grid size of the distance vector. -/
theorem iterB_len (w h : Nat) (blocked : List Bool) (d0 : List (Option Nat))
    (hlen : d0.length = w * h) : ∀ n, ((relaxStepB w h blocked)^[n] d0).length = w * h := by
  intro n
  induction n with
  | zero => exact hlen
  | succ n ih =>
    rw [Function.iterate_succ_apply']
    unfold relaxStepB
    simp

/-- Later sweeps only decrease distances. -/
theorem iterB_le_add (w h : Nat) (blocked : List Bool) (d0 : List (Option Nat))
    (hlen : d0.length = w * h) (k j i : Nat) :
    oLE (((relaxStepB w h blocked)^[k + j] d0).getD i none)
      (((relaxStepB w h blocked)^[k] d0).getD i none) := by
  induction j with
  | zero => exact oLE_refl _
  | succ j ih =>
    have h1 : (relaxStepB w h blocked)^[k + (j + 1)] d0 =
        relaxStepB w h blocked ((relaxStepB w h blocked)^[k + j] d0) := by
      rw [show k + (j + 1) = (k + j) + 1 from rfl, Function.iterate_succ_apply']
    rw [h1]
    exact oLE_trans
      (relaxStepB_le w h blocked _ (iterB_len w h blocked d0 hlen (k + j)) i) ih

/-- Monotone comparison between any two sweep counts. -/
theorem iterB_le (w h : Nat) (blocked : List Bool) (d0 : List (Option Nat))
    (hlen : d0.length = w * h) (k n i : Nat) (hkn : k ≤ n) :
    oLE (((relaxStepB w h blocked)^[n] d0).getD i none)
      (((relaxStepB w h blocked)^[k] d0).getD i none) := by
  obtain ⟨j, rfl⟩ := Nat.exists_eq_add_of_le hkn
  exact iterB_le_add w h blocked d0 hlen k j i

/-- Row-major index decomposition round trip. -/
theorem idx_roundtrip (w i : Nat) :
    ((i / w : Nat) : Int).toNat * w + ((i % w : Nat) : Int).toNat = i := by
  rw [Int.toNat_natCast, Int.toNat_natCast, Nat.mul_comm]
  exact Nat.div_add_mod i w

/-- Cell relaxation reads the `blocked` bitmap only at the relaxed cell
itself, so two bitmaps agreeing there relax the cell identically. -/
theorem relaxAtB_congr (w h : Nat) (ba bb : List Bool) (d : List (Option Nat)) (i : Nat)
    (hbl : ba.getD i false = bb.getD i false) :
    relaxAtB w h ba d i = relaxAtB w h bb d i := by
  have hcond : exitValidB w h ba ((i % w : Nat) : Int) ((i / w : Nat) : Int)
      = exitValidB w h bb ((i % w : Nat) : Int) ((i / w : Nat) : Int) := by
    unfold exitValidB
    rw [idx_roundtrip w i, hbl]
  unfold relaxAtB
  rw [hcond]

/-- A blocked cell is never relaxed. -/
theorem relaxAtB_of_blocked (w h : Nat) (blocked : List Bool) (d : List (Option Nat))
    (i : Nat) (hb : blocked.getD i false = true) :
    relaxAtB w h blocked d i = d.getD i none := by
  have hcond : exitValidB w h blocked ((i % w : Nat) : Int) ((i / w : Nat) : Int) = false := by
    unfold exitValidB
    rw [idx_roundtrip w i, hb]
    simp
  unfold relaxAtB
  rw [hcond]
  simp

/-- Grid-size of the initial distance vector. -/
theorem initDistB_len (w h s : Nat) : (initDistB w h s).length = w * h := by
  unfold initDistB
  simp

/-- Core exchange lemma: blocking exactly a set of cells that the flood
already reports as unreachable does not change any sweep of the flood (up
to the sweep count actually used). -/
theorem dij_eq_of_blocked (w h : Nat) (bNew bOld : List Bool) (s : Nat) (P : Nat → Prop)
    (hPdec : ∀ i, P i → bNew.getD i false = true)
    (hPnot : ∀ i, ¬ P i → bNew.getD i false = bOld.getD i false)
    (hPnone : ∀ i, P i →
      ((relaxStepB w h bOld)^[w * h] (initDistB w h s)).getD i none = none) :
    ∀ k, k ≤ w * h →
      (relaxStepB w h bNew)^[k] (initDistB w h s)
        = (relaxStepB w h bOld)^[k] (initDistB w h s) := by
  intro k
  induction k with
  | zero => intro _; rfl
  | succ k ih =>
    intro hk1
    have hk : k ≤ w * h := Nat.le_of_succ_le hk1
    rw [Function.iterate_succ_apply', Function.iterate_succ_apply', ih hk]
    show (List.range (w * h)).map
        (relaxAtB w h bNew ((relaxStepB w h bOld)^[k] (initDistB w h s)))
      = (List.range (w * h)).map
        (relaxAtB w h bOld ((relaxStepB w h bOld)^[k] (initDistB w h s)))
    apply List.map_congr_left
    intro i hi
    have hiN : i < w * h := List.mem_range.mp hi
    by_cases hP : P i
    · rw [relaxAtB_of_blocked w h bNew _ i (hPdec i hP)]
      have h1 : ((relaxStepB w h bOld)^[k] (initDistB w h s)).getD i none = none := by
        apply oLE_none
        have hle := iterB_le w h bOld (initDistB w h s) (initDistB_len w h s) k (w * h) i hk
        rw [hPnone i hP] at hle
        exact hle
      have h2 : relaxAtB w h bOld ((relaxStepB w h bOld)^[k] (initDistB w h s)) i = none := by
        have he : relaxAtB w h bOld ((relaxStepB w h bOld)^[k] (initDistB w h s)) i =
            ((relaxStepB w h bOld)^[k + 1] (initDistB w h s)).getD i none := by
          rw [Function.iterate_succ_apply', relaxStepB_getD, if_pos hiN]
        rw [he]
        apply oLE_none
        have hle := iterB_le w h bOld (initDistB w h s) (initDistB_len w h s)
          (k + 1) (w * h) i hk1
        rw [hPnone i hP] at hle
        exact hle
      rw [h1, h2]
    · exact relaxAtB_congr w h bNew bOld _ i (hPnot i hP)

/-- Pointwise description of the `blocked` bitmap after `populate_blocked`. -/
theorem pb_blocked_getD (m : MapL) (i : Nat) :
    (populate_blocked m).blocked.getD i false =
      if i < m.tiles.length then decide (tileAt m i = Tile.wall) else false := by
  show (m.tiles.map fun t => decide (t = Tile.wall)).getD i false = _
  rw [List.getD_eq_getElem?_getD, List.getElem?_map]
  by_cases hi : i < m.tiles.length
  · rw [List.getElem?_eq_getElem hi, if_pos hi]
    unfold tileAt
    rw [List.getD_eq_getElem?_getD, List.getElem?_eq_getElem hi]
    rfl
  · rw [List.getElem?_eq_none (Nat.le_of_not_lt hi), if_neg hi]
    rfl

/-- Length of the culled tile vector, through the cull wrapper. -/
theorem remove_tiles_length (m : MapL) (s : Nat) :
    (remove_unreachable_areas_returning_most_distant m s).1.tiles.length
      = m.tiles.length := by
  rw [remove_tiles_eq, cullTiles_length]

/-- A newly culled tile is blocked in the culled map's repopulated bitmap. -/
theorem blocked_culled_true (m : MapL) (s i : Nat) (h : newlyCulled m s i) :
    (populate_blocked
        (remove_unreachable_areas_returning_most_distant m s).1).blocked.getD i false
      = true := by
  rw [pb_blocked_getD]
  rw [if_pos (by rw [remove_tiles_length]; exact h.1)]
  have hw : tileAt (remove_unreachable_areas_returning_most_distant m s).1 i = Tile.wall := by
    unfold tileAt
    rw [remove_tiles_eq, cullTiles_getD, if_pos h.1]
    unfold cullCell
    exact if_pos ⟨h.2.1, h.2.2⟩
  rw [hw]
  rfl

/-- A tile that is not newly culled keeps its blockedness across the cull. -/
theorem blocked_culled_not (m : MapL) (s i : Nat) (h : ¬ newlyCulled m s i) :
    (populate_blocked
        (remove_unreachable_areas_returning_most_distant m s).1).blocked.getD i false
      = (populate_blocked m).blocked.getD i false := by
  rw [pb_blocked_getD, pb_blocked_getD]
  by_cases hi : i < m.tiles.length
  · rw [if_pos (by rw [remove_tiles_length]; exact hi), if_pos hi]
    have ht : tileAt (remove_unreachable_areas_returning_most_distant m s).1 i
        = tileAt m i := by
      unfold tileAt
      rw [remove_tiles_eq, cullTiles_getD, if_pos hi]
      unfold cullCell
      rw [if_neg (fun hc => h ⟨hi, hc.1, hc.2⟩)]
    rw [ht]
  · rw [if_neg (by rw [remove_tiles_length]; exact hi), if_neg hi]

/-- The flood distances recomputed on the culled map coincide with the
original flood distances: culling only blocks cells the flood already
could not reach. -/
theorem dij_culled_eq (m : MapL) (s : Nat) :
    dijkstraList (populate_blocked (remove_unreachable_areas_returning_most_distant m s).1) s
      = dijkstraList (populate_blocked m) s := by
  have key := dij_eq_of_blocked m.width m.height
      (populate_blocked (remove_unreachable_areas_returning_most_distant m s).1).blocked
      (populate_blocked m).blocked s
      (newlyCulled m s)
      (fun i hi => blocked_culled_true m s i hi)
      (fun i hi => blocked_culled_not m s i hi)
      (fun i hi => hi.2.2)
      (m.width * m.height) (Nat.le_refl _)
  exact key

/-- Cull decision is idempotent per tile. -/
theorem cullCell_idem (dist : Option Nat) (t : Tile) :
    cullCell dist (cullCell dist t) = cullCell dist t := by
  unfold cullCell
  by_cases hc : t = Tile.floor ∧ dist = none
  · rw [if_pos hc, if_neg (by simp)]
  · rw [if_neg hc, if_neg hc]

/-- Pointwise optional lookup of the cull pass. -/
theorem cullTiles_getElem? (dij : List (Option Nat)) (tiles : List Tile) (i : Nat) :
    (cullTiles dij tiles)[i]? =
      if i < tiles.length then
        some (cullCell (dij.getD i none) (tiles.getD i Tile.wall))
      else none := by
  unfold cullTiles
  rw [List.getElem?_map]
  by_cases hi : i < tiles.length
  · rw [List.getElem?_range hi]
    simp [hi]
  · rw [List.getElem?_eq_none (by simpa using Nat.le_of_not_lt hi)]
    simp [hi]

/-- Culling an already culled tile vector with the same distances changes
nothing. -/
theorem cullTiles_idem (dij : List (Option Nat)) (tiles : List Tile) :
    cullTiles dij (cullTiles dij tiles) = cullTiles dij tiles := by
  apply List.ext_getElem?
  intro i
  rw [cullTiles_getElem?, cullTiles_getElem?, cullTiles_length]
  by_cases hi : i < tiles.length
  · rw [if_pos hi, if_pos hi, cullTiles_getD, if_pos hi]
    exact congrArg some (cullCell_idem _ _)
  · rw [if_neg hi, if_neg hi]

/-- Claim C9: running the reachability cull twice in a row from the same
start index produces the same tile grid as running it once — the second
run converts no additional floor tiles to wall, because every floor tile
surviving the first run has a finite flood distance and the recomputed
distances agree with the original ones. -/
theorem cull_idempotent (m : MapL) (s : Nat) :
    (remove_unreachable_areas_returning_most_distant
        (remove_unreachable_areas_returning_most_distant m s).1 s).1.tiles
      = (remove_unreachable_areas_returning_most_distant m s).1.tiles := by
  rw [remove_tiles_eq
    (remove_unreachable_areas_returning_most_distant m s).1 s]
  rw [dij_culled_eq m s]
  rw [remove_tiles_eq m s]
  exact cullTiles_idem _ m.tiles

/-- Claim C6, counterexample to the claim as stated: on the grid `g5` the
interior cell `(2, 2)` has zero wall neighbours among its four
axis-adjacent cells, so the claimed rule ("wall exactly when the
axis-adjacent wall count is 0 or exceeds 4") would make it a wall; the
pass makes it a floor, because the code counts the diagonal wall at
`(1, 1)` as well. -/
theorem ca_axis_rule_false :
    ¬(tileAt (caPass g5) (2 * g5.width + 2) = Tile.wall ↔
      (specAxisWallCount g5 2 2 = 0 ∨ specAxisWallCount g5 2 2 > 4)) := by
  decide

/-- Claim C6 (amended): each automata pass reads only the unmodified
current grid (structurally: `caPass` is a pure function of the previous
grid, iterated fifteen times by `caPasses`), and an interior cell becomes
wall exactly when the number of its EIGHT surrounding cells (four
axis-adjacent and four diagonal) that are wall is 0 or greater than 4 —
the code's offset pairs `±1`, `±width`, `±(width-1)`, `±(width+1)` read
the full Moore neighbourhood, not the four axis-adjacent cells the claim
names. -/
theorem ca_pass_moore_rule (m : MapL) (x y : Nat)
    (hlen : m.tiles.length = m.width * m.height)
    (hx1 : 1 ≤ x) (hx2 : x < m.width - 1) (hy1 : 1 ≤ y) (hy2 : y < m.height - 1) :
    tileAt (caPass m) (y * m.width + x) = Tile.wall ↔
      (specMooreWallCount m x y = 0 ∨ specMooreWallCount m x y > 4) := by
  obtain ⟨x', rfl⟩ : ∃ x0, x = x0 + 1 := ⟨x - 1, by omega⟩
  obtain ⟨y', rfl⟩ : ∃ y0, y = y0 + 1 := ⟨y - 1, by omega⟩
  have hw3 : x' + 3 ≤ m.width := by omega
  have hh3 : y' + 3 ≤ m.height := by omega
  have hA1 : (y' + 1) * m.width = y' * m.width + m.width := by ring
  have hA2 : (y' + 1 + 1) * m.width = y' * m.width + 2 * m.width := by ring
  have hi : (y' + 1) * m.width + (x' + 1) < m.width * m.height := by
    have h1 : (y' + 1 + 1) * m.width ≤ m.height * m.width :=
      Nat.mul_le_mul_right _ (by omega)
    have h2 : m.height * m.width = m.width * m.height := Nat.mul_comm _ _
    omega
  have hmod : ((y' + 1) * m.width + (x' + 1)) % m.width = x' + 1 := by
    rw [Nat.add_comm, Nat.add_mul_mod_self_right]
    exact Nat.mod_eq_of_lt (by omega)
  have hdiv : ((y' + 1) * m.width + (x' + 1)) / m.width = y' + 1 := by
    rw [Nat.add_comm, Nat.add_mul_div_right _ _ (by omega : 0 < m.width)]
    rw [Nat.div_eq_of_lt (by omega), Nat.zero_add]
  unfold tileAt
  rw [show (caPass m).tiles = (List.range m.tiles.length).map (caPassCell m) from rfl]
  rw [getD_range_map, if_pos (by omega : (y' + 1) * m.width + (x' + 1) < m.tiles.length)]
  unfold caPassCell
  rw [hmod, hdiv, if_pos (by omega)]
  unfold caCell
  have hcnt : caWallCount m ((y' + 1) * m.width + (x' + 1))
      = specMooreWallCount m (x' + 1) (y' + 1) := by
    unfold caWallCount specMooreWallCount tileAt
    simp only [List.foldl_cons, List.foldl_nil, Nat.add_sub_cancel]
    have e1 : (y' + 1) * m.width + (x' + 1) - 1 = (y' + 1) * m.width + x' := by omega
    have e2 : (y' + 1) * m.width + (x' + 1) + 1 = (y' + 1) * m.width + (x' + 1 + 1) := by
      omega
    have e3 : (y' + 1) * m.width + (x' + 1) - m.width = y' * m.width + (x' + 1) := by
      omega
    have e4 : (y' + 1) * m.width + (x' + 1) + m.width
        = (y' + 1 + 1) * m.width + (x' + 1) := by omega
    have e5 : (y' + 1) * m.width + (x' + 1) - (m.width - 1)
        = y' * m.width + (x' + 1 + 1) := by omega
    have e6 : (y' + 1) * m.width + (x' + 1) + (m.width - 1)
        = (y' + 1 + 1) * m.width + x' := by omega
    have e7 : (y' + 1) * m.width + (x' + 1) - (m.width + 1) = y' * m.width + x' := by
      omega
    have e8 : (y' + 1) * m.width + (x' + 1) + (m.width + 1)
        = (y' + 1 + 1) * m.width + (x' + 1 + 1) := by omega
    rw [e1, e2, e3, e4, e5, e6, e7, e8]
    ring
  rw [hcnt]
  by_cases hc : specMooreWallCount m (x' + 1) (y' + 1) > 4 ∨
      specMooreWallCount m (x' + 1) (y' + 1) = 0
  · rw [if_pos hc]
    exact ⟨fun _ => by omega, fun _ => rfl⟩
  · rw [if_neg hc]
    constructor
    · intro hfw
      exact absurd hfw (by simp)
    · intro hs
      exfalso
      omega

/-- Claim C6, witness: the amended rule instantiated on the grid `g5` at
the interior cell `(2, 2)`. -/
theorem ca_pass_moore_rule_witness :
    (g5.tiles.length = g5.width * g5.height ∧ 1 ≤ 2 ∧ 2 < g5.width - 1 ∧
      1 ≤ 2 ∧ 2 < g5.height - 1) ∧
    (tileAt (caPass g5) (2 * g5.width + 2) = Tile.wall ↔
      (specMooreWallCount g5 2 2 = 0 ∨ specMooreWallCount g5 2 2 > 4)) :=
  ⟨⟨by decide, by decide, by decide, by decide, by decide⟩,
    ca_pass_moore_rule g5 2 2 (by decide) (by decide) (by decide) (by decide) (by decide)⟩

/-- Claim C7, counterexample to the claim as stated: running the maze
generation loop on a 3 x 1 grid (no die rolls are ever needed), after two
steps the backtrack stack is `[0, 1]` (so cell 1 was the most recently
pushed) and the current cell 2 has no unvisited neighbour; the third step
continues from cell 0 — `backtrace[0]`, the FIRST-pushed entry — not from
the most recently pushed cell 1 that the claim predicts. -/
theorem maze_pops_front_not_back :
    ((maze_steps 2 (gridNew 3 1) []).map (fun p => (p.1.backtrace, p.1.current))
        = some ([0, 1], 2)) ∧
    ((maze_steps 3 (gridNew 3 1) []).map (fun p => p.1.current) = some 0) ∧
    ([0, 1].getLast? = some 1) ∧
    ¬((maze_steps 3 (gridNew 3 1) []).map (fun p => p.1.current) = some 1) := by
  decide

/-- Claim C7 (amended): at a dead end (no unvisited neighbour) the loop
continues from the FIRST-pushed entry of the backtrack stack
(`self.backtrace[0]`, removed with `remove(0)` — FIFO order, not the
LIFO pop the claim states), and the loop terminates exactly when the
stack is empty and no unvisited neighbour exists. -/
theorem maze_dead_end_fifo (g : MGrid) (rng : List Nat)
    (hfind : (find_next_cell (markVisited g g.current) rng).1 = none) :
    (g.backtrace = [] → maze_step g rng = none) ∧
    (∀ b bs, g.backtrace = b :: bs →
      maze_step g rng
        = some ({ markVisited g g.current with current := b, backtrace := bs }, rng)) := by
  have hfc : find_next_cell (markVisited g g.current) rng = (none, rng) := by
    unfold find_next_cell at hfind ⊢
    by_cases hns : (get_available_neighbors (markVisited g g.current)).isEmpty
    · rw [if_pos hns]
    · rw [if_neg hns] at hfind
      by_cases h1 : (get_available_neighbors (markVisited g g.current)).length = 1
      · rw [if_pos h1] at hfind
        exact absurd hfind (by simp)
      · rw [if_neg h1] at hfind
        exact absurd hfind (by simp)
  have hb : (markVisited g g.current).backtrace = g.backtrace := rfl
  have hrng : (find_next_cell (markVisited g g.current) rng).2 = rng :=
    congrArg Prod.snd hfc
  constructor
  · intro hbt
    simp only [maze_step, hfind, hb, hbt, List.isEmpty_nil, if_true]
  · intro b bs hbt
    simp only [maze_step, hfind, hb, hbt, hrng, List.isEmpty_cons, List.tail_cons,
      List.headD_cons]
    simp

/-- Claim C7, witness: the dead-end state `mazeDead` (stack `[0, 1]`,
current cell 2 with no unvisited neighbour) steps to current cell 0 with
stack `[1]`. -/
theorem maze_dead_end_fifo_witness :
    ((find_next_cell (markVisited mazeDead mazeDead.current) []).1 = none ∧
      mazeDead.backtrace = 0 :: [1]) ∧
    maze_step mazeDead []
      = some ({ markVisited mazeDead mazeDead.current with
                  current := 0, backtrace := [1] }, []) :=
  ⟨⟨by decide, rfl⟩, (maze_dead_end_fifo mazeDead [] (by decide)).2 0 [1] rfl⟩

/-- Claim C2: the `BuilderChains::CellularAutomata` chain places TWO
`DownStairs` tiles, not one: the initial builder's own `locate_exit`
places one at the farthest floor tile, and the chain's `DistantExit`
stage then places another at the (different) floor tile that is now
farthest — the first stair tile is no longer `Floor`, so it cannot be
re-chosen.  Demonstrated end to end on the corridor state `mcorr`
standing in for the automata output. -/
theorem chain_places_two_downstairs :
    chainCellularTiles.tiles.count Tile.downStairs = 2 := by
  decide

/-- Claim C3: with `chunk_size = 2`, the patterns `wfcP0` (floor only at
`(0, 0)`) and `wfcP1` (floor only at `(1, 1)`) both have border exits and
their facing exit vectors share no slot in the North direction, so the
claimed rule says they are NOT compatible to the north; yet
`patterns_to_constraints` records pattern 1 in pattern 0's North
compatibility list, because `has_exits` is computed as `n_exits == 0`
(inverted), sending every pair in which either pattern HAS an exit down
the "compatible everywhere" fast path. -/
theorem wfc_all_pairs_compatible :
    (((patterns_to_constraints [wfcP0, wfcP1] 2).getD 0 default).compatible_with.getD
        Direction.north.disc []).contains 1 = true ∧
    specCompatibleB wfcP0 wfcP1 2 Direction.north = false := by
  decide

/-- Claim C4: one `Solver::iteration` step on the state `wfcSolver0`
(single remaining entry for chunk 8, whose recount gives neighbour
count 2).  The code resolves chunk 2 — `remaining.remove(r_idx).1`, the
neighbour COUNT, is used as the chunk index — and leaves the popped
chunk 8 unresolved; the surviving-candidate set at the resolved cell is
exactly `[5]` (pattern 3's North list via the down neighbour), yet the
stored pattern is 0 — the random position inside `possible_options`
rather than `possible_options[position]`.  The infeasibility flag stays
true and the step does not end the loop. -/
theorem solver_iteration_bugs :
    (iteration wfcSolver0 wfcMap3 []).1.chunks.getD 2 none = some 0 ∧
    (iteration wfcSolver0 wfcMap3 []).1.chunks.getD 8 none = none ∧
    (iteration wfcSolver0 wfcMap3 []).1.possible = true ∧
    (iteration wfcSolver0 wfcMap3 []).2.2.2 = false ∧
    ((wfcSolver0.constraints.getD 3 default).compatible_with.getD
        Direction.north.disc []) = [5] ∧
    (iteration wfcSolver0 wfcMap3 []).1.chunks.getD 2 none ≠ some 5 := by
  decide

/-- Claim C5: on the catalog `wfcCons5` with oracle `[1, 3, 1]`, the first
solve attempt of the retry loop ends infeasible (`possible = false`) with
a floor tile rendered at map index 0, and the loop hands exactly that
mutated map — not a fresh all-wall `Map::new` grid — to the next attempt:
the reset `self.map = Map::new(depth)` sits before the loop, never inside
it. -/
theorem wfc_failed_attempt_tiles_persist :
    (wfcAttempt wfcCons5 mapNew [1, 3, 1]).1.possible = false ∧
    (wfcAttempt wfcCons5 mapNew [1, 3, 1]).2.1.tiles.getD 0 Tile.wall = Tile.floor ∧
    wfcLoop 2 wfcCons5 mapNew [1, 3, 1]
      = wfcLoop 1 wfcCons5 (wfcAttempt wfcCons5 mapNew [1, 3, 1]).2.1
          (wfcAttempt wfcCons5 mapNew [1, 3, 1]).2.2 := by
  have h1 : (wfcAttempt wfcCons5 mapNew [1, 3, 1]).1.possible = false := by decide
  refine ⟨h1, by decide, ?_⟩
  show (if (wfcAttempt wfcCons5 mapNew [1, 3, 1]).1.possible then
      (wfcAttempt wfcCons5 mapNew [1, 3, 1]).2.1
    else wfcLoop 1 wfcCons5 (wfcAttempt wfcCons5 mapNew [1, 3, 1]).2.1
      (wfcAttempt wfcCons5 mapNew [1, 3, 1]).2.2) = _
  rw [h1]
  simp
